import Mathlib

/-!
Verification development for the `aeletsencrypt` package: a shallow
embedding in Lean 4 of the certificate reconciliation engine
(`src/cron.go`) and of the ACME issuance / authorization flow
(`src/acme.go`), together with theorems settling the specification's
claims about them.

Modelling conventions:
* External collaborators (the AppEngine Admin API, the ACME client
  library, memcache, `time.Parse`, RSA key generation) are oracles
  packaged in environment structures; the control flow of the source
  functions is embedded faithfully over those oracles.
* Time is modelled in seconds as `Int`; `time.Now()` is the fixed `now`
  of a run.
* Effectful registry / ACME calls are additionally recorded in an action
  trace, so that claims of the form "performs no patch" are statable.
* The Go slice access `c.DomainNames[0]` panics on an empty slice; the
  certificate loop therefore returns `Option`, `none` modelling the
  out-of-bounds panic.
-/

namespace AeLetsEncrypt

/-! ## Data model: AppEngine Admin API records (src/cron.go) -/

/-- Embeds `api.CertificateRawData` (fields `PrivateKey`, `PublicCertificate`). -/
structure CertificateRawData where
  privateKey : String := ""
  publicCertificate : String := ""
deriving DecidableEq, Repr

/-- Embeds `api.AuthorizedCertificate`: the fields that `src/cron.go` reads
(`Id`, `DomainNames`, `ExpireTime`) or writes (`CertificateRawData`,
`DisplayName`). Unset Go fields keep their zero values. -/
structure AuthorizedCertificate where
  id : String := ""
  displayName : String := ""
  domainNames : List String := []
  expireTime : String := ""
  certificateRawData : Option CertificateRawData := none
deriving DecidableEq, Repr

/-- Embeds `api.SslSettings` (field `CertificateId`). -/
structure SslSettings where
  certificateId : String := ""
deriving DecidableEq, Repr

/-- Embeds `api.DomainMapping`: field `Id` (the domain) and the nilable
pointer `SslSettings`, modelled as `Option`. -/
structure DomainMapping where
  id : String := ""
  sslSettings : Option SslSettings := none
deriving DecidableEq, Repr

/-- One effectful call of a reconciliation run: an issuance attempt
(`obtainCert`), a certificate creation, a domain-mapping patch or a
certificate patch (each patch recorded with its update mask). -/
inductive Action where
  | issue (domain : String)
  | create (body : AuthorizedCertificate)
  | patchMapping (domain certId updateMask : String)
  | patchCert (certId : String) (body : AuthorizedCertificate) (updateMask : String)
deriving DecidableEq, Repr

/-- Environment of a reconciliation run: the external collaborators of
`createUpdate` in `src/cron.go`. Each `Except` value models the outcome
of the corresponding remote call; `obtainCert` models the in-package
issuance flow as the Go triple `(cert, key, err)`. -/
structure CronEnv where
  appID : String
  serviceAccount : Except String String
  defaultClient : Except String Unit
  apiNew : Except String Unit
  listDomains : Except String (List DomainMapping)
  listCerts : Except String (List AuthorizedCertificate)
  obtainCert : String → String × String × Option String
  createCert : AuthorizedCertificate → Except String AuthorizedCertificate
  patchMapping : String → String → Except String Unit
  patchCert : String → AuthorizedCertificate → Except String Unit
  parseTime : String → Except String Int

/-- Embeds `updateBefore = 30 * 24 * time.Hour` (src/cron.go, line 17),
in seconds: the delay to update certificates before expiration. -/
def updateBefore : Int := 30 * 24 * 60 * 60

/-- Whether the first character list starts the second, auxiliary to
`containsSub` (models `strings.Contains` from the Go standard library). -/
def startsWithL : List Char → List Char → Bool
  | [], _ => true
  | _ :: _, [] => false
  | p :: ps, c :: cs => p = c && startsWithL ps cs

/-- Whether `pat` occurs as a contiguous substring (models
`strings.Contains` from the Go standard library). -/
def containsSub (pat : List Char) : List Char → Bool
  | [] => pat.isEmpty
  | c :: rest => startsWithL pat (c :: rest) || containsSub pat rest

/-- Embeds `strings.Contains(s, pat)` on Lean strings. -/
def strContains (s pat : String) : Bool := containsSub pat.data s.data

/-- Embeds `addTip` (src/cron.go, lines 127-149): annotate recognized
error strings with a remediation tip, for display only. -/
def addTip (appID : String) (sa : Except String String) (err : String) : String :=
  let serviceAccount := match sa with
    | .error _ => "n/a"
    | .ok s => s
  if strContains err "Quota configuration not found"
      || strContains err "Google App Engine Admin API has not been used" then
    err ++ "\nTip: enable Google App Engine Admin API on https://console.cloud.google.com/apis/api/appengine.googleapis.com/overview?project=" ++ appID
  else if strContains err "Operation not allowed, forbidden" then
    err ++ "\nTip: add AppEngine default service account (" ++ serviceAccount
      ++ ") to role App Engine Admin https://console.cloud.google.com/iam-admin/iam/project?project=" ++ appID
  else if strContains err "Caller is not authorized to administer this certificate" then
    err ++ "\nTip: add AppEngine default service account (" ++ serviceAccount
      ++ ") as verified owner for the domainhttps://www.google.com/webmasters/verification/details"
  else err

/-- Embeds one iteration of the domain loop of `createUpdate`
(src/cron.go, lines 56-88): skip domains that already have a certificate,
otherwise obtain a certificate, create it in the registry and patch the
domain mapping to point at it; any failure returns the error. The result
is the list of effectful calls made and the error, if any. -/
def processDomain (env : CronEnv) (e : DomainMapping) : List Action × Option String :=
  match e.sslSettings with
  | some _ => ([], none)
  | none =>
    let domain := e.id
    match env.obtainCert domain with
    | (_, _, some err) =>
      ([Action.issue domain], some ("obtain cert for " ++ domain ++ ": " ++ err))
    | (cert, key, none) =>
      let body : AuthorizedCertificate :=
        { certificateRawData := some { privateKey := key, publicCertificate := cert },
          displayName := domain }
      match env.createCert body with
      | .error err =>
        ([Action.issue domain, Action.create body],
         some (addTip env.appID env.serviceAccount ("create cert for " ++ domain ++ ": " ++ err)))
      | .ok created =>
        match env.patchMapping domain created.id with
        | .error err =>
          ([Action.issue domain, Action.create body,
            Action.patchMapping domain created.id "ssl_settings.certificate_id"],
           some (addTip env.appID env.serviceAccount ("update mapping for " ++ domain ++ ": " ++ err)))
        | .ok _ =>
          ([Action.issue domain, Action.create body,
            Action.patchMapping domain created.id "ssl_settings.certificate_id"], none)

/-- The domain loop of `createUpdate` (src/cron.go, lines 56-88): process
the listed domain mappings in order; an error in one iteration returns
immediately (`return` in the Go loop body), so later mappings are not
processed. -/
def runDomains (env : CronEnv) : List DomainMapping → List Action × Option String
  | [] => ([], none)
  | e :: rest =>
    match processDomain env e with
    | (tr, some err) => (tr, some err)
    | (tr, none) =>
      let (tr2, err2) := runDomains env rest
      (tr ++ tr2, err2)

/-- Embeds one iteration of the certificate loop of `createUpdate`
(src/cron.go, lines 96-121). The unconditional `c.DomainNames[0]` access
is modelled by `head?`, `none` standing for the out-of-bounds panic.
Certificates expiring strictly more than 30 days from now are skipped;
otherwise a certificate is obtained and patched in place over the same
identifier with update mask `certificate_raw_data`. -/
def processCert (env : CronEnv) (now : Int) (c : AuthorizedCertificate) :
    Option (List Action × Option String) :=
  match c.domainNames.head? with
  | none => none
  | some domain =>
    match env.parseTime c.expireTime with
    | .error err => some ([], some ("invalid expiry for " ++ domain ++ ": " ++ err))
    | .ok expire =>
      if now + updateBefore < expire then
        some ([], none)
      else
        match env.obtainCert domain with
        | (_, _, some err) =>
          some ([Action.issue domain], some ("obtain cert for " ++ domain ++ ": " ++ err))
        | (cert, key, none) =>
          let body : AuthorizedCertificate :=
            { certificateRawData := some { privateKey := key, publicCertificate := cert } }
          match env.patchCert c.id body with
          | .error err =>
            some ([Action.issue domain, Action.patchCert c.id body "certificate_raw_data"],
                  some (addTip env.appID env.serviceAccount ("update cert for " ++ domain ++ ": " ++ err)))
          | .ok _ =>
            some ([Action.issue domain, Action.patchCert c.id body "certificate_raw_data"], none)

/-- The certificate loop of `createUpdate` (src/cron.go, lines 96-121):
process the listed certificates in order; an error in one iteration
returns immediately; a panic (`none`) propagates. -/
def runCerts (env : CronEnv) (now : Int) : List AuthorizedCertificate → Option (List Action × Option String)
  | [] => some ([], none)
  | c :: rest =>
    match processCert env now c with
    | none => none
    | some (tr, some err) => some (tr, some err)
    | some (tr, none) =>
      match runCerts env now rest with
      | none => none
      | some (tr2, err2) => some (tr ++ tr2, err2)

/-- Embeds `createUpdate` (src/cron.go, lines 40-125): client setup,
list domains, domain loop, list certificates, certificate loop. The
result is `none` on a panic, otherwise the action trace and the error
returned, if any. Progress text written to the response writer is
presentation only and not modelled. -/
def createUpdate (env : CronEnv) (now : Int) : Option (List Action × Option String) :=
  match env.defaultClient with
  | .error err => some ([], some ("default client: " ++ err))
  | .ok _ =>
    match env.apiNew with
    | .error err => some ([], some ("api client: " ++ err))
    | .ok _ =>
      match env.listDomains with
      | .error err =>
        some ([], some (addTip env.appID env.serviceAccount ("list domains: " ++ err)))
      | .ok dms =>
        match runDomains env dms with
        | (tr, some err) => some (tr, some err)
        | (tr, none) =>
          match env.listCerts with
          | .error err =>
            some (tr, some (addTip env.appID env.serviceAccount ("list certificates: " ++ err)))
          | .ok acs =>
            match runCerts env now acs with
            | none => none
            | some (tr2, err2) => some (tr ++ tr2, err2)

/-! ## Concrete environments used to exercise the reconciliation engine -/

/-- A concrete reconciliation environment: issuance fails for
`fail.example` and succeeds elsewhere; expiry `far` parses to a time far
in the future, `near` to one inside the renewal window (times in seconds,
`now = 0` in the runs below). -/
def envA : CronEnv where
  appID := "app"
  serviceAccount := .ok "sa"
  defaultClient := .ok ()
  apiNew := .ok ()
  listDomains := .ok []
  listCerts := .ok []
  obtainCert := fun d => if d = "fail.example" then ("", "", some "boom") else ("CERT", "KEY", none)
  createCert := fun b => .ok { b with id := "newcert" }
  patchMapping := fun _ _ => .ok ()
  patchCert := fun _ _ => .ok ()
  parseTime := fun s =>
    if s = "far" then .ok 4102444800
    else if s = "near" then .ok 777600
    else .error "bad"

/-! ## Base64 and PEM transport encoding

Models the Go standard library `encoding/pem` (as used through
`pem.EncodeToMemory` in src/acme.go, lines 87-93) at the byte level:
standard base64 of the DER bytes, wrapped in lines of 64 characters
between `-----BEGIN label-----` and `-----END label-----` lines, every
line terminated by a newline. A decoder is defined alongside so that the
spec's round-trip claim is statable. -/

/-- The base64 alphabet, for sextet values below 64. -/
def b64CharCore (n : Nat) : Char :=
  if n < 26 then Char.ofNat (65 + n)
  else if n < 52 then Char.ofNat (97 + (n - 26))
  else if n < 62 then Char.ofNat (48 + (n - 52))
  else if n = 62 then '+'
  else '/'

/-- Total base64 alphabet function (sextets are always below 64 at use
sites; the reduction keeps it total). -/
def b64Char (n : Nat) : Char := b64CharCore (n % 64)

/-- Inverse of the base64 alphabet. -/
def b64DecodeChar (c : Char) : Option Nat :=
  let v := c.toNat
  if 65 ≤ v ∧ v ≤ 90 then some (v - 65)
  else if 97 ≤ v ∧ v ≤ 122 then some (v - 97 + 26)
  else if 48 ≤ v ∧ v ≤ 57 then some (v - 48 + 52)
  else if v = 43 then some 62
  else if v = 47 then some 63
  else none

/-- Standard base64 encoding of a byte list, with `=` padding. -/
def b64EncodeChunks : List Nat → List Char
  | [] => []
  | [a] => [b64Char (a / 4), b64Char (a % 4 * 16), '=', '=']
  | [a, b] => [b64Char (a / 4), b64Char (a % 4 * 16 + b / 16), b64Char (b % 16 * 4), '=']
  | a :: b :: c :: rest =>
    b64Char (a / 4) :: b64Char (a % 4 * 16 + b / 16) :: b64Char (b % 16 * 4 + c / 64)
      :: b64Char (c % 64) :: b64EncodeChunks rest

/-- Standard base64 decoding; padding is accepted only at the end. -/
def b64DecodeChunks : List Char → Option (List Nat)
  | [] => some []
  | c1 :: c2 :: c3 :: c4 :: rest =>
    match b64DecodeChar c1, b64DecodeChar c2 with
    | some a1, some a2 =>
      if c3 = '=' ∧ c4 = '=' ∧ rest = [] then
        some [a1 * 4 + a2 / 16]
      else if c4 = '=' ∧ rest = [] then
        match b64DecodeChar c3 with
        | some a3 => some [a1 * 4 + a2 / 16, a2 % 16 * 16 + a3 / 4]
        | none => none
      else
        match b64DecodeChar c3, b64DecodeChar c4 with
        | some a3, some a4 =>
          match b64DecodeChunks rest with
          | some bs => some ((a1 * 4 + a2 / 16) :: (a2 % 16 * 16 + a3 / 4) :: (a3 % 4 * 64 + a4) :: bs)
          | none => none
        | _, _ => none
    | _, _ => none
  | _ => none

/-- Split a character stream into lines of 64 characters, the fixed line
width used by `encoding/pem`. -/
def wrapLines (s : List Char) : List (List Char) :=
  if h : s = [] then []
  else s.take 64 :: wrapLines (s.drop 64)
termination_by s.length
decreasing_by
  have : 0 < s.length := List.length_pos.mpr h
  simp only [List.length_drop]
  omega

/-- Split a character stream at newlines; a trailing newline yields a
final empty piece. -/
def splitLines : List Char → List (List Char)
  | [] => [[]]
  | c :: rest =>
    if c = '\n' then [] :: splitLines rest
    else
      match splitLines rest with
      | [] => [[c]]
      | l :: ls => (c :: l) :: ls

/-- The opening boundary line of a PEM block. -/
def beginLine (label : String) : List Char :=
  "-----BEGIN ".data ++ label.data ++ "-----".data

/-- The closing boundary line of a PEM block. -/
def endLine (label : String) : List Char :=
  "-----END ".data ++ label.data ++ "-----".data

/-- Embeds `pem.EncodeToMemory(&pem.Block\x7bType: label, Bytes: bytes\x7d)`:
boundary lines around the 64-column base64 body, each line newline
terminated. -/
def pemEncodeBlock (label : String) (bytes : List Nat) : List Char :=
  (beginLine label ++ ['\n'])
    ++ ((wrapLines (b64EncodeChunks bytes)).map (fun l => l ++ ['\n'])).flatten
    ++ (endLine label ++ ['\n'])

/-- Collect lines up to the first occurrence of `stop`, returning them
with the remainder; `none` if `stop` never occurs. -/
def takeUntilLine (stop : List Char) : List (List Char) → Option (List (List Char) × List (List Char))
  | [] => none
  | l :: rest =>
    if l = stop then some ([], rest)
    else
      match takeUntilLine stop rest with
      | none => none
      | some (body, rem) => some (l :: body, rem)

/-- The remainder returned by `takeUntilLine` is shorter than the input. -/
theorem takeUntilLine_length {stop : List Char} :
    ∀ {ls body rem}, takeUntilLine stop ls = some (body, rem) → rem.length < ls.length := by
  intro ls
  induction ls with
  | nil => intro body rem h; simp [takeUntilLine] at h
  | cons l rest ih =>
    intro body rem h
    simp only [takeUntilLine] at h
    split at h
    · cases h
      simp
    · cases htu : takeUntilLine stop rest with
      | none => rw [htu] at h; cases h
      | some p =>
        rw [htu] at h
        cases p with
        | mk body0 rem0 =>
          cases h
          have := ih htu
          simp
          omega

/-- Decode a sequence of PEM blocks of the given label from a list of
lines (a trailing empty line, the artifact of the final newline, ends the
input). -/
def decodeBlocksLines (label : String) : List (List Char) → Option (List (List Nat))
  | [] => some []
  | l :: rest =>
    if l = [] then (if rest = [] then some [] else none)
    else if l = beginLine label then
      match h : takeUntilLine (endLine label) rest with
      | none => none
      | some (body, rem) =>
        match b64DecodeChunks body.flatten with
        | none => none
        | some bytes =>
          match decodeBlocksLines label rem with
          | none => none
          | some more => some (bytes :: more)
    else none
termination_by ls => ls.length
decreasing_by
  have := takeUntilLine_length h
  simp
  omega

/-- Decode a PEM-encoded chain back to its DER byte lists. -/
def pemDecodeChain (label : String) (s : String) : Option (List (List Nat)) :=
  decodeBlocksLines label (splitLines s.data)

/-! ## Challenge handler (src/acme.go, lines 29-40) -/

/-- Outcome of `memcache.Get`: the stored item value, a cache miss
(`memcache.ErrCacheMiss`), or any other error. -/
inductive GetResult where
  | ok (value : String)
  | cacheMiss
  | err (msg : String)
deriving DecidableEq, Repr

/-- An HTTP response: status code and body text. -/
structure HttpResponse where
  status : Nat
  body : String
deriving DecidableEq, Repr

/-- Embeds `challengeHandler` (src/acme.go, lines 29-40): serve the value
memcached under the request path verbatim (`fmt.Fprint`, implicit status
200); `http.NotFound` (status 404) on `memcache.ErrCacheMiss`; an
internal server error (status 500) on any other store error. -/
def challengeHandler (store : String → GetResult) (path : String) : HttpResponse :=
  match store path with
  | .ok v => { status := 200, body := v }
  | .cacheMiss => { status := 404, body := "404 page not found\n" }
  | .err e => { status := 500, body := "memcache get: " ++ e ++ "\n" }

/-! ## Authorization flow (src/acme.go, lines 100-137) -/

/-- Embeds `acme.Challenge`: the fields `Type` and `Token` read by
`authorize`. -/
structure Challenge where
  type : String := ""
  token : String := ""
deriving DecidableEq, Repr

/-- Embeds `acme.Authorization`: the fields `Status`, `URI` and
`Challenges` read by `authorize`. -/
structure Authorization where
  status : String := ""
  uri : String := ""
  challenges : List Challenge := []
deriving DecidableEq, Repr

/-- Embeds `acme.StatusValid`. -/
def statusValid : String := "valid"

/-- ACME client oracle for one account key: the outcomes of the client
calls made by `authorize` (`Authorize`, `HTTP01ChallengeResponse`,
`HTTP01ChallengePath`, `memcache.Set`, `Accept`, `WaitAuthorization`). -/
structure AcmeEnv where
  authorizeResult : String → Except String Authorization
  challengeResponse : String → Except String String
  challengePath : String → String
  memcacheSet : String → String → Except String Unit
  acceptChallenge : Challenge → Except String Unit
  waitAuthorization : String → Except String Unit

/-- Externally visible step of the authorization flow: publishing the
challenge response at its path, accepting the challenge, or polling the
authorization until it is terminal. -/
inductive AcmeAction where
  | publish (path value : String)
  | accept (token : String)
  | wait (uri : String)
deriving DecidableEq, Repr

/-- Embeds `authorize` (src/acme.go, lines 100-137): request an
authorization for the domain; succeed immediately when its status is
already `valid`; otherwise select the first offered challenge of type
`http-01` (error when none is offered), compute and publish its response
in memcache at the challenge path, accept the challenge, and wait for the
authorization to become valid. Returns the steps performed and the error,
if any. -/
def authorize (client : AcmeEnv) (domain : String) : List AcmeAction × Option String :=
  match client.authorizeResult domain with
  | .error e => ([], some ("authorize: " ++ e))
  | .ok auth =>
    if auth.status = statusValid then ([], none)
    else
      match auth.challenges.find? (fun c => c.type == "http-01") with
      | none => ([], some "no http-01 challenge offered")
      | some challenge =>
        match client.challengeResponse challenge.token with
        | .error e => ([], some ("challenge response: " ++ e))
        | .ok response =>
          let path := client.challengePath challenge.token
          match client.memcacheSet path response with
          | .error e => ([AcmeAction.publish path response], some ("memcache set: " ++ e))
          | .ok _ =>
            match client.acceptChallenge challenge with
            | .error e =>
              ([AcmeAction.publish path response, AcmeAction.accept challenge.token],
               some ("accept challenge: " ++ e))
            | .ok _ =>
              match client.waitAuthorization auth.uri with
              | .error e =>
                ([AcmeAction.publish path response, AcmeAction.accept challenge.token,
                  AcmeAction.wait auth.uri], some ("authorization: " ++ e))
              | .ok _ =>
                ([AcmeAction.publish path response, AcmeAction.accept challenge.token,
                  AcmeAction.wait auth.uri], none)

/-! ## Issuance flow (src/acme.go, lines 45-96) -/

/-- An RSA key, identified by which random draw generated it and its
modulus size in bits: distinct draws of the random source yield distinct
keys. -/
structure RsaKey where
  draw : Nat
  bits : Nat
deriving DecidableEq, Repr

/-- Embeds the `x509.CertificateRequest` built by `obtainCert`: subject
common name, DNS subject-alternative names, and the key that signs it. -/
structure CertificateRequest where
  commonName : String
  dnsNames : List String
  signingKey : RsaKey
deriving DecidableEq, Repr

/-- Environment of the issuance flow: randomness (`keyGenError i` is the
failure, if any, of the i-th `rsa.GenerateKey` draw), CSR serialization,
account registration, the ACME client obtained from an account key, the
CA's `CreateCert` answer (a list of DER certificates), and
`x509.MarshalPKCS1PrivateKey`. -/
structure ObtainEnv where
  keyGenError : Nat → Option String
  csrError : CertificateRequest → Option String
  registerError : RsaKey → Option String
  acme : RsaKey → AcmeEnv
  createCert : RsaKey → CertificateRequest → Int → Bool → Except String (List (List Nat))
  marshalPKCS1 : RsaKey → List Nat

/-- Embeds `const expiry = 90 * 24 * time.Hour` (src/acme.go, line 80),
in seconds: the desired certificate validity. -/
def certExpiry : Int := 90 * 24 * 60 * 60

/-- Embeds `const bundle = true` (src/acme.go, line 81). -/
def certBundle : Bool := true

/-- Result of `obtainCert`: the Go return triple `(cert, key, err)`,
instrumented with the next random draw index, the keys generated, the
certificate request built, and the ACME steps performed. -/
structure ObtainResult where
  cert : String
  key : String
  err : Option String
  nextIdx : Nat
  keysGenerated : List RsaKey
  csrBuilt : Option CertificateRequest
  acmeTrace : List AcmeAction
deriving Repr

/-- Embeds `obtainCert` (src/acme.go, lines 45-96): generate a fresh
2048-bit certificate key, build a CSR with the domain as common name and
sole DNS name, generate a fresh 2048-bit account key, register, run the
authorization flow, submit the CSR (90-day validity, bundled chain), and
PEM-encode the returned DER chain (one `CERTIFICATE` block each, in
order) and the certificate key (one `RSA PRIVATE KEY` block). Every
failure returns `("", "", err)`. -/
def obtainCert (env : ObtainEnv) (idx : Nat) (domain : String) : ObtainResult :=
  match env.keyGenError idx with
  | some e =>
    { cert := "", key := "", err := some ("cert key: " ++ e),
      nextIdx := idx + 1, keysGenerated := [], csrBuilt := none, acmeTrace := [] }
  | none =>
    let certKey : RsaKey := { draw := idx, bits := 2048 }
    let req : CertificateRequest :=
      { commonName := domain, dnsNames := [domain], signingKey := certKey }
    match env.csrError req with
    | some e =>
      { cert := "", key := "", err := some ("csr: " ++ e),
        nextIdx := idx + 1, keysGenerated := [certKey], csrBuilt := some req, acmeTrace := [] }
    | none =>
      match env.keyGenError (idx + 1) with
      | some e =>
        { cert := "", key := "", err := some ("account key: " ++ e),
          nextIdx := idx + 2, keysGenerated := [certKey], csrBuilt := some req, acmeTrace := [] }
      | none =>
        let accountKey : RsaKey := { draw := idx + 1, bits := 2048 }
        match env.registerError accountKey with
        | some e =>
          { cert := "", key := "", err := some ("register: " ++ e), nextIdx := idx + 2,
            keysGenerated := [certKey, accountKey], csrBuilt := some req, acmeTrace := [] }
        | none =>
          match authorize (env.acme accountKey) domain with
          | (tr, some e) =>
            { cert := "", key := "", err := some e, nextIdx := idx + 2,
              keysGenerated := [certKey, accountKey], csrBuilt := some req, acmeTrace := tr }
          | (tr, none) =>
            match env.createCert accountKey req certExpiry certBundle with
            | .error e =>
              { cert := "", key := "", err := some ("create cert: " ++ e), nextIdx := idx + 2,
                keysGenerated := [certKey, accountKey], csrBuilt := some req, acmeTrace := tr }
            | .ok certDER =>
              let certPEM :=
                certDER.foldl (fun acc b => acc ++ pemEncodeBlock "CERTIFICATE" b) []
              let certKeyPEM := pemEncodeBlock "RSA PRIVATE KEY" (env.marshalPKCS1 certKey)
              { cert := String.mk certPEM, key := String.mk certKeyPEM, err := none,
                nextIdx := idx + 2, keysGenerated := [certKey, accountKey],
                csrBuilt := some req, acmeTrace := tr }

/-! ## Concrete ACME environments -/

/-- A challenge store holding one published value. -/
def storeA : String → GetResult := fun p =>
  if p = "/.well-known/acme-challenge/tok" then .ok "resp" else .cacheMiss

/-- A challenge store whose backing memcache always fails. -/
def storeErr : String → GetResult := fun _ => .err "boom"

/-- An ACME client whose authorization is already valid. -/
def acmeValid : AcmeEnv where
  authorizeResult := fun _ => .ok { status := "valid", uri := "uri1" }
  challengeResponse := fun t => .ok ("resp-" ++ t)
  challengePath := fun t => "/.well-known/acme-challenge/" ++ t
  memcacheSet := fun _ _ => .ok ()
  acceptChallenge := fun _ => .ok ()
  waitAuthorization := fun _ => .ok ()

/-- An ACME client offering only a dns-01 challenge on a pending
authorization. -/
def acmeNoHttp : AcmeEnv where
  authorizeResult := fun _ =>
    .ok { status := "pending", uri := "uri2",
          challenges := [{ type := "dns-01", token := "tokD" }] }
  challengeResponse := fun t => .ok ("resp-" ++ t)
  challengePath := fun t => "/.well-known/acme-challenge/" ++ t
  memcacheSet := fun _ _ => .ok ()
  acceptChallenge := fun _ => .ok ()
  waitAuthorization := fun _ => .ok ()

/-- An issuance environment that succeeds end to end, returning a small
two-certificate DER chain. -/
def obtainEnvOk : ObtainEnv where
  keyGenError := fun _ => none
  csrError := fun _ => none
  registerError := fun _ => none
  acme := fun _ => acmeValid
  createCert := fun _ _ _ _ => .ok [[1, 2, 3], [255, 0]]
  marshalPKCS1 := fun _ => [9, 8, 7]

/-- An issuance environment whose random source fails on every draw. -/
def obtainEnvRngFail : ObtainEnv where
  keyGenError := fun _ => some "rng"
  csrError := fun _ => none
  registerError := fun _ => none
  acme := fun _ => acmeValid
  createCert := fun _ _ _ _ => .ok []
  marshalPKCS1 := fun _ => []

/-! ## Reconciliation claims -/

/-- Auxiliary: a certificate record with a nonempty domain-name list is
always processed to a definite outcome (no panic). -/
theorem processCert_isSome (env : CronEnv) (now : Int) (c : AuthorizedCertificate)
    (h : c.domainNames ≠ []) : (processCert env now c).isSome = true := by
  rcases hc : c.domainNames with _ | ⟨d, ds⟩
  · exact absurd hc h
  · simp only [processCert, hc, List.head?_cons]
    repeat' split
    all_goals simp

/-- C1 (counterexample): in a run where issuance fails for the first
unbound domain `fail.example`, the run returns that error and never
attempts issuance for the remaining unbound domain `b.example` — the
failure aborts the run, refuting the claim that it continues. -/
theorem singleFailureNeverAborts_counterexample :
    createUpdate { envA with
        listDomains := .ok [{ id := "fail.example" }, { id := "b.example" }] } 0 =
      some ([Action.issue "fail.example"],
            some "obtain cert for fail.example: boom") ∧
    Action.issue "b.example" ∉ [Action.issue "fail.example"] := by
  constructor
  · rfl
  · decide

/-- C1 (amended): for every domain or certificate whose issuance attempt
fails, the reconciliation run returns an error naming the offending
domain and aborts immediately: the trace stops at that issuance attempt
and no remaining domain or certificate is processed in that run. -/
theorem issuanceFailureAbortsRun (env : CronEnv) (now : Int) :
    (∀ (e : DomainMapping) (rest : List DomainMapping) (cert key msg : String),
       e.sslSettings = none →
       env.obtainCert e.id = (cert, key, some msg) →
       runDomains env (e :: rest) =
         ([Action.issue e.id], some ("obtain cert for " ++ e.id ++ ": " ++ msg))) ∧
    (∀ (c : AuthorizedCertificate) (rest : List AuthorizedCertificate)
       (d : String) (ds : List String) (t : Int) (cert key msg : String),
       c.domainNames = d :: ds →
       env.parseTime c.expireTime = .ok t →
       t ≤ now + updateBefore →
       env.obtainCert d = (cert, key, some msg) →
       runCerts env now (c :: rest) =
         some ([Action.issue d], some ("obtain cert for " ++ d ++ ": " ++ msg))) := by
  constructor
  · intro e rest cert key msg hssl hoc
    simp only [runDomains, processDomain, hssl, hoc]
  · intro c rest d ds t cert key msg hd ht hle hoc
    simp only [runCerts, processCert, hd, List.head?_cons, ht]
    rw [if_neg (not_lt.mpr hle)]
    simp only [hoc]

/-- C1 (witness for the amended claim): concrete run aborting on the
failing domain `fail.example` without processing `b.example`. -/
theorem issuanceFailureAbortsRun_witness :
    runDomains envA [{ id := "fail.example" }, { id := "b.example" }] =
      ([Action.issue "fail.example"],
       some ("obtain cert for " ++ "fail.example" ++ ": " ++ "boom")) :=
  (issuanceFailureAbortsRun envA 0).1 { id := "fail.example" } [{ id := "b.example" }]
    "" "" "boom" rfl rfl

/-- C2: a certificate whose parsed expiry is strictly more than 30 days
after `now` is left untouched by the reconciliation step (no issuance, no
patch, no error); conversely one whose expiry is within 30 days triggers
an issuance attempt for its first domain name. -/
theorem renewalWindowDecides (env : CronEnv) (now t : Int) (c : AuthorizedCertificate)
    (d : String) (ds : List String)
    (hd : c.domainNames = d :: ds)
    (ht : env.parseTime c.expireTime = .ok t) :
    (now + updateBefore < t → processCert env now c = some ([], none)) ∧
    (t ≤ now + updateBefore →
       ∃ tr err, processCert env now c = some (tr, err) ∧ Action.issue d ∈ tr) := by
  constructor
  · intro hlt
    simp only [processCert, hd, List.head?_cons, ht]
    rw [if_pos hlt]
  · intro hle
    simp only [processCert, hd, List.head?_cons, ht]
    rw [if_neg (not_lt.mpr hle)]
    split
    · exact ⟨_, _, rfl, by simp⟩
    · split
      · exact ⟨_, _, rfl, by simp⟩
      · exact ⟨_, _, rfl, by simp⟩

/-- C2 (witness): a certificate expiring far in the future is a no-op;
one expiring within the window is issued for. -/
theorem renewalWindowDecides_witness :
    processCert envA 0 { id := "c1", domainNames := ["c.example"], expireTime := "far" } =
      some ([], none) ∧
    (∃ tr err,
       processCert envA 0 { id := "c2", domainNames := ["c.example"], expireTime := "near" } =
         some (tr, err) ∧ Action.issue "c.example" ∈ tr) :=
  ⟨(renewalWindowDecides envA 0 4102444800
      { id := "c1", domainNames := ["c.example"], expireTime := "far" }
      "c.example" [] rfl rfl).1 (by decide),
   (renewalWindowDecides envA 0 777600
      { id := "c2", domainNames := ["c.example"], expireTime := "near" }
      "c.example" [] rfl rfl).2 (by decide)⟩

/-- C5: a certificate within the renewal window whose issuance and patch
succeed is renewed by exactly one patch call, addressed to the same
certificate identifier, whose body carries only the new raw data (key and
certificate) — identifier, display name, domain names and expiry of the
body are left at their zero values — under update mask
`certificate_raw_data`, so the domain binding and display name are
unchanged. -/
theorem renewalPatchesInPlace (env : CronEnv) (now t : Int) (c : AuthorizedCertificate)
    (d : String) (ds : List String) (cert key : String)
    (hd : c.domainNames = d :: ds)
    (ht : env.parseTime c.expireTime = .ok t)
    (hw : t ≤ now + updateBefore)
    (ho : env.obtainCert d = (cert, key, none))
    (hp : env.patchCert c.id
        { certificateRawData := some { privateKey := key, publicCertificate := cert } } = .ok ()) :
    processCert env now c =
      some ([Action.issue d,
             Action.patchCert c.id
               { id := "", displayName := "", domainNames := [], expireTime := "",
                 certificateRawData := some { privateKey := key, publicCertificate := cert } }
               "certificate_raw_data"], none) := by
  simp only [processCert, hd, List.head?_cons, ht]
  rw [if_neg (not_lt.mpr hw)]
  simp only [ho, hp]

/-- C5 (witness): concrete renewal of certificate `c2` expiring within
the window: exactly one patch, same identifier, raw data only. -/
theorem renewalPatchesInPlace_witness :
    processCert envA 0 { id := "c2", domainNames := ["c.example"], expireTime := "near" } =
      some ([Action.issue "c.example",
             Action.patchCert "c2"
               { id := "", displayName := "", domainNames := [], expireTime := "",
                 certificateRawData := some { privateKey := "KEY", publicCertificate := "CERT" } }
               "certificate_raw_data"], none) :=
  renewalPatchesInPlace envA 0 777600
    { id := "c2", domainNames := ["c.example"], expireTime := "near" }
    "c.example" [] "CERT" "KEY" rfl rfl (by decide) rfl rfl

/-- C9: the certificate loop reads the first domain name of each listed
certificate unconditionally, so a certificate with an empty domain-name
list makes the run undefined (the modelled out-of-bounds panic `none`),
while the loop is well-defined whenever every listed certificate has at
least one domain name. -/
theorem certLoopNeedsDomainName (env : CronEnv) (now : Int) :
    (∀ (c : AuthorizedCertificate) (rest : List AuthorizedCertificate),
       c.domainNames = [] → runCerts env now (c :: rest) = none) ∧
    (∀ cs : List AuthorizedCertificate,
       (∀ c ∈ cs, c.domainNames ≠ []) → (runCerts env now cs).isSome = true) := by
  constructor
  · intro c rest hc
    simp only [runCerts, processCert, hc, List.head?_nil]
  · intro cs h
    induction cs with
    | nil => simp [runCerts]
    | cons c rest ih =>
      have h1 : (processCert env now c).isSome = true :=
        processCert_isSome env now c (h c (by simp))
      obtain ⟨⟨tr, err⟩, hsome⟩ := Option.isSome_iff_exists.mp h1
      have h2 := ih (fun c' hc' => h c' (by simp [hc']))
      simp only [runCerts, hsome]
      cases err with
      | some e => simp
      | none =>
        obtain ⟨⟨tr2, err2⟩, hsome2⟩ := Option.isSome_iff_exists.mp h2
        simp [hsome2]

/-- C9 (witness): a listed certificate with an empty domain-name list
makes the certificate loop panic. -/
theorem certLoopNeedsDomainName_witness :
    runCerts envA 0 [{ id := "empty" }] = none :=
  (certLoopNeedsDomainName envA 0).1 { id := "empty" } [] rfl

/-! ## Challenge handler claims -/

/-- C3: a GET to the challenge handler returns the published value
verbatim with status 200 when the store holds one for that exact path,
status 404 on a cache miss, and status 500 (never 404) on any other
store error. -/
theorem challengeHandlerContract (store : String → GetResult) (path : String) :
    (∀ v, store path = .ok v → challengeHandler store path = { status := 200, body := v }) ∧
    (store path = .cacheMiss → (challengeHandler store path).status = 404) ∧
    (∀ e, store path = .err e →
       (challengeHandler store path).status = 500 ∧
       (challengeHandler store path).status ≠ 404) := by
  refine ⟨?_, ?_, ?_⟩
  · intro v hv
    simp [challengeHandler, hv]
  · intro hv
    simp [challengeHandler, hv]
  · intro e hv
    simp [challengeHandler, hv]

/-- C3 (witness): concrete hit, miss and store failure. -/
theorem challengeHandlerContract_witness :
    challengeHandler storeA "/.well-known/acme-challenge/tok" =
      { status := 200, body := "resp" } ∧
    (challengeHandler storeA "/other").status = 404 ∧
    ((challengeHandler storeErr "/x").status = 500 ∧
     (challengeHandler storeErr "/x").status ≠ 404) :=
  ⟨(challengeHandlerContract storeA "/.well-known/acme-challenge/tok").1 "resp" rfl,
   (challengeHandlerContract storeA "/other").2.1 rfl,
   (challengeHandlerContract storeErr "/x").2.2 "boom" rfl⟩

/-! ## Authorization flow claims -/

/-- C4: when the CA returns an authorization whose status is already
`valid`, the authorization flow succeeds immediately: no challenge is
selected, nothing is published, and no accept or poll happens (empty
action trace, no error). -/
theorem validAuthorizationShortCircuits (client : AcmeEnv) (domain : String)
    (auth : Authorization)
    (ha : client.authorizeResult domain = .ok auth)
    (hv : auth.status = statusValid) :
    authorize client domain = ([], none) := by
  simp [authorize, ha, hv]

/-- C4 (witness): the flow on a pre-valid authorization is a no-op
success. -/
theorem validAuthorizationShortCircuits_witness :
    authorize acmeValid "a.example" = ([], none) :=
  validAuthorizationShortCircuits acmeValid "a.example"
    { status := "valid", uri := "uri1" } rfl rfl

/-- C6: when the authorization is not already valid and no offered
challenge has type `http-01`, the flow fails with the
no-supported-challenge error and performs no step at all — in particular
nothing is published. -/
theorem noHttp01ChallengeFails (client : AcmeEnv) (domain : String)
    (auth : Authorization)
    (ha : client.authorizeResult domain = .ok auth)
    (hv : auth.status ≠ statusValid)
    (hc : ∀ ch ∈ auth.challenges, ch.type ≠ "http-01") :
    authorize client domain = ([], some "no http-01 challenge offered") := by
  have hf : auth.challenges.find? (fun c => c.type == "http-01") = none := by
    rw [List.find?_eq_none]
    intro ch hch
    simpa using hc ch hch
  simp only [authorize, ha]
  rw [if_neg hv]
  simp [hf]

/-- C6 (witness): a pending authorization offering only dns-01 fails
with the no-supported-challenge error, publishing nothing. -/
theorem noHttp01ChallengeFails_witness :
    authorize acmeNoHttp "b.example" = ([], some "no http-01 challenge offered") :=
  noHttp01ChallengeFails acmeNoHttp "b.example"
    { status := "pending", uri := "uri2",
      challenges := [{ type := "dns-01", token := "tokD" }] }
    rfl (by decide) (by decide)

/-! ## Issuance flow claims -/

/-- Auxiliary: every key generated by a call to `obtainCert` comes from a
random draw in the interval `[idx, nextIdx)` of that call. -/
theorem obtainCert_draw_bounds (env : ObtainEnv) (idx : Nat) (domain : String) :
    ∀ k ∈ (obtainCert env idx domain).keysGenerated,
      idx ≤ k.draw ∧ k.draw < (obtainCert env idx domain).nextIdx := by
  intro k hk
  revert hk
  simp only [obtainCert]
  repeat' split
  all_goals intro hk
  all_goals simp at hk
  all_goals first
    | ((rcases hk with rfl | rfl) <;> refine ⟨?_, ?_⟩ <;> simp <;> omega)
    | (subst hk; refine ⟨?_, ?_⟩ <;> simp <;> omega)

/-- Auxiliary: a call to `obtainCert` consumes draws up to `nextIdx`,
which is strictly beyond `idx`. -/
theorem obtainCert_nextIdx_gt (env : ObtainEnv) (idx : Nat) (domain : String) :
    idx < (obtainCert env idx domain).nextIdx := by
  simp only [obtainCert]
  repeat' split
  all_goals simp

/-- C7: a call to `obtainCert` generates a fresh 2048-bit certificate
key and a separate fresh 2048-bit account key (distinct random draws,
and disjoint from the draws of any later call), and builds a CSR whose
common name is the domain and whose DNS name list is exactly the
one-element list of that domain, signed by the certificate key. -/
theorem obtainCertFreshKeysAndCSR (env : ObtainEnv) (idx : Nat) (domain : String)
    (h1 : env.keyGenError idx = none)
    (h2 : env.csrError { commonName := domain, dnsNames := [domain],
                         signingKey := { draw := idx, bits := 2048 } } = none)
    (h3 : env.keyGenError (idx + 1) = none) :
    (obtainCert env idx domain).keysGenerated =
      [{ draw := idx, bits := 2048 }, { draw := idx + 1, bits := 2048 }] ∧
    ({ draw := idx, bits := 2048 } : RsaKey) ≠ { draw := idx + 1, bits := 2048 } ∧
    (obtainCert env idx domain).csrBuilt =
      some { commonName := domain, dnsNames := [domain],
             signingKey := { draw := idx, bits := 2048 } } ∧
    (∀ (env2 : ObtainEnv) (domain2 : String) (k : RsaKey),
       k ∈ (obtainCert env idx domain).keysGenerated →
       k ∈ (obtainCert env2 (obtainCert env idx domain).nextIdx domain2).keysGenerated →
       False) := by
  have hkeys : (obtainCert env idx domain).keysGenerated =
      [{ draw := idx, bits := 2048 }, { draw := idx + 1, bits := 2048 }] := by
    simp only [obtainCert, h1, h2, h3]
    repeat' split
    all_goals rfl
  have hcsr : (obtainCert env idx domain).csrBuilt =
      some { commonName := domain, dnsNames := [domain],
             signingKey := { draw := idx, bits := 2048 } } := by
    simp only [obtainCert, h1, h2, h3]
    repeat' split
    all_goals rfl
  refine ⟨hkeys, ?_, hcsr, ?_⟩
  · simp only [ne_eq, RsaKey.mk.injEq]
    omega
  · intro env2 domain2 k hk1 hk2
    have b1 := obtainCert_draw_bounds env idx domain k hk1
    have b2 := obtainCert_draw_bounds env2 ((obtainCert env idx domain).nextIdx) domain2 k hk2
    omega

/-- C7 (witness): concrete successful call generating draws 0 and 1 and
building the CSR for `w.example`. -/
theorem obtainCertFreshKeysAndCSR_witness :
    (obtainCert obtainEnvOk 0 "w.example").keysGenerated =
      [{ draw := 0, bits := 2048 }, { draw := 1, bits := 2048 }] ∧
    (obtainCert obtainEnvOk 0 "w.example").csrBuilt =
      some { commonName := "w.example", dnsNames := ["w.example"],
             signingKey := { draw := 0, bits := 2048 } } :=
  ⟨(obtainCertFreshKeysAndCSR obtainEnvOk 0 "w.example" rfl rfl rfl).1,
   (obtainCertFreshKeysAndCSR obtainEnvOk 0 "w.example" rfl rfl rfl).2.2.1⟩

/-- C10: whenever `obtainCert` returns an error, the returned certificate
and key strings are both empty: no partial material escapes a failed
attempt. -/
theorem obtainCertNoPartialResult (env : ObtainEnv) (idx : Nat) (domain : String)
    (h : (obtainCert env idx domain).err ≠ none) :
    (obtainCert env idx domain).cert = "" ∧ (obtainCert env idx domain).key = "" := by
  revert h
  simp only [obtainCert]
  repeat' split
  all_goals intro h
  all_goals first
    | exact ⟨rfl, rfl⟩
    | exact absurd rfl h

/-- C10 (witness): a failed key generation yields empty certificate and
key strings. -/
theorem obtainCertNoPartialResult_witness :
    (obtainCert obtainEnvRngFail 0 "d.example").cert = "" ∧
    (obtainCert obtainEnvRngFail 0 "d.example").key = "" :=
  obtainCertNoPartialResult obtainEnvRngFail 0 "d.example" (by decide)

/-! ## PEM round-trip lemmas -/

/-- The base64 alphabet decodes back to the sextet value and avoids the
padding, newline and boundary-dash characters. -/
theorem b64CharCore_spec : ∀ m < 64,
    b64DecodeChar (b64CharCore m) = some m ∧ b64CharCore m ≠ '=' ∧
    b64CharCore m ≠ '\n' ∧ b64CharCore m ≠ '-' := by decide

theorem b64DecodeChar_b64Char (n : Nat) : b64DecodeChar (b64Char n) = some (n % 64) :=
  (b64CharCore_spec (n % 64) (Nat.mod_lt _ (by omega))).1

theorem b64Char_ne_eq (n : Nat) : b64Char n ≠ '=' :=
  (b64CharCore_spec (n % 64) (Nat.mod_lt _ (by omega))).2.1

theorem b64Char_ne_newline (n : Nat) : b64Char n ≠ '\n' :=
  (b64CharCore_spec (n % 64) (Nat.mod_lt _ (by omega))).2.2.1

theorem b64Char_ne_dash (n : Nat) : b64Char n ≠ '-' :=
  (b64CharCore_spec (n % 64) (Nat.mod_lt _ (by omega))).2.2.2

/-- No character of a base64 encoding is a newline or a dash. -/
theorem b64EncodeChunks_chars (bytes : List Nat) :
    ∀ c ∈ b64EncodeChunks bytes, c ≠ '\n' ∧ c ≠ '-' := by
  induction bytes using b64EncodeChunks.induct with
  | case1 =>
    intro c hc
    simp [b64EncodeChunks] at hc
  | case2 a =>
    intro c hc
    simp only [b64EncodeChunks, List.mem_cons, List.not_mem_nil, or_false] at hc
    rcases hc with rfl | rfl | rfl | rfl
    · exact ⟨b64Char_ne_newline _, b64Char_ne_dash _⟩
    · exact ⟨b64Char_ne_newline _, b64Char_ne_dash _⟩
    · exact ⟨by decide, by decide⟩
    · exact ⟨by decide, by decide⟩
  | case3 a b =>
    intro c hc
    simp only [b64EncodeChunks, List.mem_cons, List.not_mem_nil, or_false] at hc
    rcases hc with rfl | rfl | rfl | rfl
    · exact ⟨b64Char_ne_newline _, b64Char_ne_dash _⟩
    · exact ⟨b64Char_ne_newline _, b64Char_ne_dash _⟩
    · exact ⟨b64Char_ne_newline _, b64Char_ne_dash _⟩
    · exact ⟨by decide, by decide⟩
  | case4 a b c rest ih =>
    intro x hx
    simp only [b64EncodeChunks, List.mem_cons] at hx
    rcases hx with rfl | rfl | rfl | rfl | hx
    · exact ⟨b64Char_ne_newline _, b64Char_ne_dash _⟩
    · exact ⟨b64Char_ne_newline _, b64Char_ne_dash _⟩
    · exact ⟨b64Char_ne_newline _, b64Char_ne_dash _⟩
    · exact ⟨b64Char_ne_newline _, b64Char_ne_dash _⟩
    · exact ih x hx

/-- Base64 decoding inverts base64 encoding on byte lists. -/
theorem b64_roundtrip (bytes : List Nat) :
    (∀ b ∈ bytes, b < 256) → b64DecodeChunks (b64EncodeChunks bytes) = some bytes := by
  induction bytes using b64EncodeChunks.induct with
  | case1 =>
    intro _
    rfl
  | case2 a =>
    intro h
    have ha : a < 256 := h a (by simp)
    simp only [b64EncodeChunks, b64DecodeChunks, b64DecodeChar_b64Char]
    rw [if_pos (by simp)]
    simp only [Option.some.injEq, List.cons.injEq, and_true]
    omega
  | case3 a b =>
    intro h
    have ha : a < 256 := h a (by simp)
    have hb : b < 256 := h b (by simp)
    simp only [b64EncodeChunks, b64DecodeChunks, b64DecodeChar_b64Char]
    rw [if_neg (fun hco => b64Char_ne_eq _ hco.1), if_pos (by simp)]
    simp only [Option.some.injEq, List.cons.injEq, and_true]
    refine ⟨by omega, by omega⟩
  | case4 a b c rest ih =>
    intro h
    have ha : a < 256 := h a (by simp)
    have hb : b < 256 := h b (by simp)
    have hc : c < 256 := h c (by simp)
    have ih2 := ih (fun x hx => h x (by simp [hx]))
    simp only [b64EncodeChunks, b64DecodeChunks, b64DecodeChar_b64Char]
    rw [if_neg (fun hco => b64Char_ne_eq _ hco.1),
        if_neg (fun hco => b64Char_ne_eq _ hco.1)]
    rw [ih2]
    simp only [Option.some.injEq, List.cons.injEq, and_true]
    refine ⟨by omega, by omega, by omega⟩

/-- Joining the 64-column lines restores the stream. -/
theorem wrapLines_flatten (s : List Char) : (wrapLines s).flatten = s := by
  induction s using wrapLines.induct with
  | case1 =>
    simp [wrapLines]
  | case2 s hs ih =>
    rw [wrapLines, dif_neg hs]
    simp only [List.flatten_cons, ih]
    exact List.take_append_drop 64 s

/-- Every character of a wrapped line comes from the stream. -/
theorem mem_wrapLines (s : List Char) :
    ∀ l ∈ wrapLines s, ∀ c ∈ l, c ∈ s := by
  induction s using wrapLines.induct with
  | case1 =>
    simp [wrapLines]
  | case2 s hs ih =>
    intro l hl c hc
    rw [wrapLines, dif_neg hs] at hl
    rcases List.mem_cons.mp hl with rfl | hl2
    · exact List.take_subset _ _ hc
    · exact List.drop_subset _ _ (ih l hl2 c hc)

/-- Splitting after a newline-free line peels that line off. -/
theorem splitLines_line (line rest : List Char) (h : '\n' ∉ line) :
    splitLines (line ++ '\n' :: rest) = line :: splitLines rest := by
  induction line with
  | nil =>
    simp [splitLines]
  | cons c cs ih =>
    have hc : ¬ c = '\n' := fun e => h (by simp [e])
    have h2 : '\n' ∉ cs := fun hm => h (List.mem_cons_of_mem _ hm)
    simp only [List.cons_append, splitLines]
    rw [if_neg hc]
    simp only [List.append_eq] at ih ⊢
    rw [ih h2]

/-- Splitting a sequence of newline-terminated, newline-free lines
recovers those lines. -/
theorem splitLines_terminated (ls : List (List Char)) (rest : List Char)
    (h : ∀ l ∈ ls, '\n' ∉ l) :
    splitLines ((ls.map (fun l => l ++ ['\n'])).flatten ++ rest) = ls ++ splitLines rest := by
  induction ls with
  | nil => simp
  | cons l ls2 ih =>
    simp only [List.map_cons, List.flatten_cons, List.append_assoc, List.singleton_append,
      List.cons_append, List.nil_append]
    rw [splitLines_line l _ (h l (by simp)), ih (fun l' hl' => h l' (by simp [hl']))]

/-- Collecting lines up to a stop line that is not among the body lines
returns exactly the body and the remainder. -/
theorem takeUntilLine_append (stop : List Char) (body rem : List (List Char))
    (h : ∀ l ∈ body, l ≠ stop) :
    takeUntilLine stop (body ++ stop :: rem) = some (body, rem) := by
  induction body with
  | nil => simp [takeUntilLine]
  | cons l body2 ih =>
    simp only [List.cons_append, takeUntilLine]
    rw [if_neg (h l (by simp))]
    simp only [List.append_eq] at ih ⊢
    rw [ih (fun l' hl' => h l' (by simp [hl']))]

/-- The opening boundary line contains no newline when the label has
none. -/
theorem newline_not_mem_beginLine (label : String) (hl : '\n' ∉ label.data) :
    '\n' ∉ beginLine label := by
  intro hmem
  rcases List.mem_append.mp hmem with h1 | h2
  · rcases List.mem_append.mp h1 with h3 | h4
    · exact absurd h3 (by decide)
    · exact hl h4
  · exact absurd h2 (by decide)

/-- The closing boundary line contains no newline when the label has
none. -/
theorem newline_not_mem_endLine (label : String) (hl : '\n' ∉ label.data) :
    '\n' ∉ endLine label := by
  intro hmem
  rcases List.mem_append.mp hmem with h1 | h2
  · rcases List.mem_append.mp h1 with h3 | h4
    · exact absurd h3 (by decide)
    · exact hl h4
  · exact absurd h2 (by decide)

/-- The closing boundary line contains a dash. -/
theorem dash_mem_endLine (label : String) : '-' ∈ endLine label :=
  List.mem_append.mpr (Or.inl (List.mem_append.mpr (Or.inl (by decide))))

/-- The opening boundary line is nonempty. -/
theorem beginLine_ne_nil (label : String) : beginLine label ≠ [] := by
  intro h
  have hd : '-' ∈ beginLine label :=
    List.mem_append.mpr (Or.inl (List.mem_append.mpr (Or.inl (by decide))))
  rw [h] at hd
  exact absurd hd (List.not_mem_nil '-')

/-- No wrapped base64 body line equals the closing boundary line. -/
theorem wrapLine_ne_endLine (label : String) (bytes : List Nat) :
    ∀ l ∈ wrapLines (b64EncodeChunks bytes), l ≠ endLine label := by
  intro l hl he
  have hdash : '-' ∈ l := he ▸ dash_mem_endLine label
  have hmem : '-' ∈ b64EncodeChunks bytes := mem_wrapLines _ l hl '-' hdash
  exact (b64EncodeChunks_chars bytes '-' hmem).2 rfl

/-- No wrapped base64 body line contains a newline. -/
theorem wrapLine_no_newline (bytes : List Nat) :
    ∀ l ∈ wrapLines (b64EncodeChunks bytes), '\n' ∉ l := by
  intro l hl hn
  exact (b64EncodeChunks_chars bytes '\n' (mem_wrapLines _ l hl '\n' hn)).1 rfl

/-- Splitting an encoded PEM block followed by anything yields the
boundary lines, the wrapped body lines, and the split of the remainder. -/
theorem splitLines_pemBlock (label : String) (hl : '\n' ∉ label.data)
    (bytes : List Nat) (rest : List Char) :
    splitLines (pemEncodeBlock label bytes ++ rest) =
      beginLine label ::
        (wrapLines (b64EncodeChunks bytes) ++ endLine label :: splitLines rest) := by
  simp only [pemEncodeBlock, List.append_assoc, List.singleton_append, List.cons_append,
    List.nil_append]
  rw [splitLines_line _ _ (newline_not_mem_beginLine label hl)]
  rw [splitLines_terminated _ _ (wrapLine_no_newline bytes)]
  rw [splitLines_line _ _ (newline_not_mem_endLine label hl)]

/-- Decoding the lines of an encoded PEM chain restores the DER byte
lists. -/
theorem decode_split_encode (label : String) (hl : '\n' ∉ label.data) :
    ∀ ders : List (List Nat), (∀ d ∈ ders, ∀ b ∈ d, b < 256) →
      decodeBlocksLines label (splitLines ((ders.map (pemEncodeBlock label)).flatten)) =
        some ders := by
  intro ders
  induction ders with
  | nil =>
    intro _
    simp [splitLines, decodeBlocksLines]
  | cons d ds ih =>
    intro hb
    have hd : ∀ b ∈ d, b < 256 := hb d (by simp)
    have hds := ih (fun d' h' => hb d' (by simp [h']))
    simp only [List.map_cons, List.flatten_cons]
    rw [splitLines_pemBlock label hl d _]
    rw [decodeBlocksLines]
    rw [if_neg (beginLine_ne_nil label), if_pos rfl]
    rw [takeUntilLine_append _ _ _ (wrapLine_ne_endLine label d)]
    simp only [wrapLines_flatten, b64_roundtrip d hd, hds]

/-- The Go append-loop over the chain equals mapping the PEM encoder and
concatenating. -/
theorem foldl_pem_append (f : List Nat → List Char) (certDER : List (List Nat)) :
    ∀ acc : List Char,
      certDER.foldl (fun acc b => acc ++ f b) acc = acc ++ (certDER.map f).flatten := by
  induction certDER with
  | nil =>
    intro acc
    simp
  | cons d ds ih =>
    intro acc
    simp only [List.foldl_cons, List.map_cons, List.flatten_cons]
    rw [ih]
    simp [List.append_assoc]

/-- C8: a successful `obtainCert` returns the certificate as the
concatenation, in chain order, of one PEM `CERTIFICATE` block per DER
certificate returned by the CA, and the key as one PEM
`RSA PRIVATE KEY` block of the marshalled certificate key; decoding both
PEM texts restores the exact DER bytes. -/
theorem obtainCertPEMRoundTrip (env : ObtainEnv) (idx : Nat) (domain : String)
    (certDER : List (List Nat)) (tr : List AcmeAction)
    (h1 : env.keyGenError idx = none)
    (h2 : env.csrError { commonName := domain, dnsNames := [domain],
                         signingKey := { draw := idx, bits := 2048 } } = none)
    (h3 : env.keyGenError (idx + 1) = none)
    (h4 : env.registerError { draw := idx + 1, bits := 2048 } = none)
    (h5 : authorize (env.acme { draw := idx + 1, bits := 2048 }) domain = (tr, none))
    (h6 : env.createCert { draw := idx + 1, bits := 2048 }
            { commonName := domain, dnsNames := [domain],
              signingKey := { draw := idx, bits := 2048 } } certExpiry certBundle =
          .ok certDER)
    (hb : ∀ d ∈ certDER, ∀ b ∈ d, b < 256)
    (hk : ∀ b ∈ env.marshalPKCS1 { draw := idx, bits := 2048 }, b < 256) :
    (obtainCert env idx domain).err = none ∧
    (obtainCert env idx domain).cert =
      String.mk ((certDER.map (pemEncodeBlock "CERTIFICATE")).flatten) ∧
    pemDecodeChain "CERTIFICATE" (obtainCert env idx domain).cert = some certDER ∧
    (obtainCert env idx domain).key =
      String.mk (pemEncodeBlock "RSA PRIVATE KEY"
        (env.marshalPKCS1 { draw := idx, bits := 2048 })) ∧
    pemDecodeChain "RSA PRIVATE KEY" (obtainCert env idx domain).key =
      some [env.marshalPKCS1 { draw := idx, bits := 2048 }] := by
  have herr : (obtainCert env idx domain).err = none := by
    simp only [obtainCert, h1, h2, h3, h4, h5, h6]
  have hcert : (obtainCert env idx domain).cert =
      String.mk ((certDER.map (pemEncodeBlock "CERTIFICATE")).flatten) := by
    simp only [obtainCert, h1, h2, h3, h4, h5, h6]
    rw [foldl_pem_append (pemEncodeBlock "CERTIFICATE") certDER []]
    rw [List.nil_append]
  have hkey : (obtainCert env idx domain).key =
      String.mk (pemEncodeBlock "RSA PRIVATE KEY"
        (env.marshalPKCS1 { draw := idx, bits := 2048 })) := by
    simp only [obtainCert, h1, h2, h3, h4, h5, h6]
  have hdec : pemDecodeChain "CERTIFICATE" (obtainCert env idx domain).cert = some certDER := by
    rw [hcert]
    exact decode_split_encode "CERTIFICATE" (by decide) certDER hb
  have hkdec : pemDecodeChain "RSA PRIVATE KEY" (obtainCert env idx domain).key =
      some [env.marshalPKCS1 { draw := idx, bits := 2048 }] := by
    rw [hkey]
    have h := decode_split_encode "RSA PRIVATE KEY" (by decide)
      [env.marshalPKCS1 { draw := idx, bits := 2048 }]
      (by intro d hd; simp only [List.mem_singleton] at hd; subst hd; exact hk)
    simpa using h
  exact ⟨herr, hcert, hdec, hkey, hkdec⟩

/-- C8 (witness): concrete successful issuance whose PEM outputs decode
back to the CA's DER chain and the marshalled key. -/
theorem obtainCertPEMRoundTrip_witness :
    (obtainCert obtainEnvOk 0 "w.example").err = none ∧
    (obtainCert obtainEnvOk 0 "w.example").cert =
      String.mk ((([[1, 2, 3], [255, 0]] : List (List Nat)).map
        (pemEncodeBlock "CERTIFICATE")).flatten) ∧
    pemDecodeChain "CERTIFICATE" (obtainCert obtainEnvOk 0 "w.example").cert =
      some [[1, 2, 3], [255, 0]] ∧
    (obtainCert obtainEnvOk 0 "w.example").key =
      String.mk (pemEncodeBlock "RSA PRIVATE KEY" [9, 8, 7]) ∧
    pemDecodeChain "RSA PRIVATE KEY" (obtainCert obtainEnvOk 0 "w.example").key =
      some [[9, 8, 7]] :=
  obtainCertPEMRoundTrip obtainEnvOk 0 "w.example" [[1, 2, 3], [255, 0]] []
    rfl rfl rfl rfl rfl rfl (by decide) (by decide)

end AeLetsEncrypt
